import Mathlib

/-!
Verification of the URL feature-extraction core of the CyberShield repository
(`src/phish-ml/feature_extraction.py`, class `URLFeatureExtractor`).

Strings are modelled as `List Char`.  Python's `urllib.parse.urlparse` is
embedded for the fragment of its behaviour the extractor relies on: scheme
recognition, authority (netloc) extraction after `//`, fragment/query
splitting and the `;`-parameter split.  Lower-casing is modelled on ASCII
(`A`-`Z`); Python's `str.isdigit` and the regex class `\d` are modelled as the
ASCII digits.  These restrictions are inessential to every claim below, all of
which concern ASCII data.
-/

/-- Convenience: the character list underlying a string literal. -/
def str (s : String) : List Char := s.data

/-- ASCII lower-casing of one character, the behaviour of Python `str.lower`
on ASCII input. -/
def lowerChar (c : Char) : Char :=
  if 65 ≤ c.toNat ∧ c.toNat ≤ 90 then Char.ofNat (c.toNat + 32) else c

/-- Lower-casing of a whole string (`url.lower()`, `netloc.lower()`). -/
def toLowerL (s : List Char) : List Char := s.map lowerChar

/-- Python's substring test `pat in s`: some contiguous run of `s` equals
`pat`.  (`pat = []` is a substring of everything, as in Python.) -/
def containsSub (pat : List Char) : List Char → Bool
  | [] => pat.isPrefixOf []
  | c :: cs => pat.isPrefixOf (c :: cs) || containsSub pat cs

/-- Python's `s.replace('www.', '')`: delete every occurrence of `www.`,
scanning left to right without overlap. -/
def removeWWW : List Char → List Char
  | 'w' :: 'w' :: 'w' :: '.' :: rest => removeWWW rest
  | c :: rest => c :: removeWWW rest
  | [] => []

/-- Split a list at the first occurrence of the character `c`; `none` when
`c` does not occur.  `some (before, after)` excludes `c` itself. -/
def splitFirst (c : Char) : List Char → Option (List Char × List Char)
  | [] => none
  | a :: as =>
    if a = c then some ([], as)
    else
      match splitFirst c as with
      | some (pre, post) => some (a :: pre, post)
      | none => none

/-- Split a list at the last occurrence of the character `c` (Python
`rfind`); `none` when `c` does not occur. -/
def splitLastChar (c : Char) (s : List Char) : Option (List Char × List Char) :=
  match splitFirst c s.reverse with
  | some (tailRev, initRev) => some (initRev.reverse, tailRev.reverse)
  | none => none

/-- Characters allowed in a URL scheme (`urllib.parse.scheme_chars`). -/
def isSchemeChar (c : Char) : Bool := c.isAlpha || c.isDigit || c = '+' || c = '-' || c = '.'

/-- Characters that terminate the authority component in `urlsplit`. -/
def isNetlocDelim (c : Char) : Bool := c = '/' || c = '?' || c = '#'

/-- Result type of the embedded `urllib.parse.urlparse`. -/
structure ParsedURL where
  scheme : List Char
  netloc : List Char
  path : List Char
  params : List Char
  query : List Char
  fragment : List Char
deriving DecidableEq, Repr

/-- Embeds `urllib.parse._splitparams`: split the `;`-parameters off the last
path segment. -/
def splitparams (p : List Char) : List Char × List Char :=
  match splitLastChar '/' p with
  | some (pre, seg) =>
    match splitFirst ';' seg with
    | some (a, b) => (pre ++ '/' :: a, b)
    | none => (p, [])
  | none =>
    match splitFirst ';' p with
    | some (a, b) => (a, b)
    | none => (p, [])

/-- Scheme recognition of `urlsplit`: when the part before the first `:` is a
well-formed scheme, return it lower-cased together with the remainder. -/
def scheme_split (url : List Char) : List Char × List Char :=
  match splitFirst ':' url with
  | some (before, after) =>
    if !before.isEmpty && (before.headD ' ').isAlpha && before.all isSchemeChar
    then (toLowerL before, after) else (([] : List Char), url)
  | none => (([] : List Char), url)

/-- Authority extraction of `urlsplit`: after a leading `//`, the authority
runs to the first `/`, `?` or `#`. -/
def netloc_split : List Char → List Char × List Char
  | '/' :: '/' :: r =>
    (r.takeWhile (fun c => !isNetlocDelim c), r.dropWhile (fun c => !isNetlocDelim c))
  | other => (([] : List Char), other)

/-- Split at the first occurrence of `c`, keeping the whole input on the left
when `c` does not occur (`url.split(c, 1)` guarded by `c in url`). -/
def split_on_char (c : Char) (s : List Char) : List Char × List Char :=
  match splitFirst c s with
  | some (a, b) => (a, b)
  | none => (s, ([] : List Char))

/-- Embeds `urllib.parse.urlparse`: scheme (lower-cased, only when the part
before the first `:` is a well-formed scheme), authority after `//` up to the
first `/`, `?` or `#`, then fragment, query and `;`-parameter splits. -/
def urlparse (url : List Char) : ParsedURL :=
  let p1 := scheme_split url
  let p2 := netloc_split p1.2
  let p3 := split_on_char '#' p2.2
  let p4 := split_on_char '?' p3.1
  let p5 := if p4.1.contains ';' then splitparams p4.1 else (p4.1, ([] : List Char))
  ⟨p1.1, p2.1, p5.1, p5.2, p4.2, p3.2⟩

/-- The `suspicious_tlds` registry. -/
def suspicious_tlds : List (List Char) :=
  [str ".tk", str ".ml", str ".ga", str ".cf", str ".gq", str ".loan", str ".win", str ".bid"]

/-- The `brand_keywords` registry. -/
def brand_keywords : List (List Char) :=
  [str "paypal", str "amazon", str "microsoft", str "google", str "apple",
   str "facebook", str "netflix", str "whatsapp", str "instagram"]

/-- The `legitimate_domains` registry (the whitelist), in source order. -/
def legitimate_domains : List (List Char) :=
  [str "google.com", str "youtube.com", str "gmail.com", str "gstatic.com", str "googleapis.com",
   str "microsoft.com", str "live.com", str "outlook.com", str "office.com", str "azure.com",
   str "apple.com", str "icloud.com", str "apple.co",
   str "amazon.com", str "amazonaws.com", str "aws.amazon.com",
   str "facebook.com", str "fb.com", str "fbcdn.net",
   str "twitter.com", str "x.com", str "t.co",
   str "linkedin.com",
   str "instagram.com",
   str "netflix.com",
   str "paypal.com",
   str "stripe.com",
   str "whatsapp.com", str "wa.me",
   str "slack.com",
   str "zoom.us",
   str "discord.com",
   str "telegram.org",
   str "github.com", str "gitlab.com", str "bitbucket.org",
   str "stackoverflow.com", str "stackexchange.com",
   str "openai.com", str "chatgpt.com", str "chat.openai.com", str "platform.openai.com",
   str "api.openai.com", str "auth0.openai.com", str "cdn.openai.com",
   str "anthropic.com", str "claude.ai", str "console.anthropic.com",
   str "npmjs.com", str "pypi.org",
   str "cursor.sh", str "cursor.com",
   str "geeksforgeeks.org",
   str "w3schools.com",
   str "tutorialspoint.com",
   str "javatpoint.com",
   str "programiz.com",
   str "codecademy.com",
   str "freecodecamp.org",
   str "udemy.com",
   str "coursera.org",
   str "khanacademy.org",
   str "edx.org",
   str "leetcode.com",
   str "hackerrank.com",
   str "datacamp.com",
   str "etlab.app",
   str "reddit.com", str "redd.it",
   str "wikipedia.org", str "wikimedia.org",
   str "medium.com",
   str "tumblr.com",
   str "pinterest.com",
   str "tiktok.com",
   str "dropbox.com",
   str "adobe.com",
   str "cloudflare.com",
   str "godaddy.com",
   str "wordpress.com", str "wordpress.org",
   str "blogger.com",
   str "notion.so",
   str "figma.com",
   str "canva.com",
   str "wise.com", str "transferwise.com",
   str "revolut.com",
   str "xe.com", str "oanda.com",
   str "payoneer.com",
   str "kaggle.com",
   str "ftc.gov", str "consumer.ftc.gov",
   str "nih.gov", str "cdc.gov", str "irs.gov", str "ssa.gov",
   str "usa.gov", str "whitehouse.gov", str "nasa.gov"]

/-- The `url_shorteners` registry. -/
def url_shorteners : List (List Char) :=
  [str "bit.ly", str "tinyurl.com", str "goo.gl", str "t.co", str "ow.ly",
   str "short.link", str "is.gd", str "v.gd", str "cutt.ly", str "shorturl.at"]

/-- Embeds `_is_legitimate_domain`: drop every `www.` occurrence, then test
exact membership in the whitelist, and otherwise equality with or
`.`-boundary suffix of some whitelist entry. -/
def is_legitimate_domain (hostname : List Char) : Nat :=
  let clean := removeWWW hostname
  if legitimate_domains.contains clean then 1
  else if legitimate_domains.any (fun d => clean == d || List.isSuffixOf ('.' :: d) clean) then 1
  else 0

/-- Embeds `_has_ip_address`: the regex `^(?:\d{1,3}\.){3}\d{1,3}$` as a full
match, i.e. exactly four `.`-separated groups of one to three digits. -/
def has_ip_address (hostname : List Char) : Nat :=
  let parts := List.splitOn '.' hostname
  if parts.length = 4 && parts.all (fun g => !g.isEmpty && g.length ≤ 3 && g.all Char.isDigit)
  then 1 else 0

/-- Embeds `_detect_suspicious_tld`. -/
def detect_suspicious_tld (hostname : List Char) : Nat :=
  if suspicious_tlds.any (fun t => List.isSuffixOf t hostname) then 1 else 0

/-- The `legitimate_brand_domains` table local to `_detect_brand_spoofing`. -/
def legitimate_brand_domains : List (List Char × List (List Char)) :=
  [(str "paypal", [str "paypal.com"]),
   (str "amazon", [str "amazon.com", str "amazonaws.com"]),
   (str "microsoft", [str "microsoft.com", str "live.com", str "outlook.com", str "office.com"]),
   (str "google", [str "google.com", str "gmail.com", str "youtube.com", str "googleapis.com"]),
   (str "apple", [str "apple.com", str "icloud.com"]),
   (str "facebook", [str "facebook.com", str "fb.com"]),
   (str "netflix", [str "netflix.com"]),
   (str "whatsapp", [str "whatsapp.com", str "wa.me"]),
   (str "instagram", [str "instagram.com"])]

/-- The per-brand `suspicious_indicators` list of `_detect_brand_spoofing`. -/
def suspicious_indicators (brand : List Char) : List (List Char) :=
  ['-' :: brand, brand ++ ['-'], brand ++ str "security", brand ++ str "verify",
   brand ++ str "suspended", brand ++ str "alert"]

/-- Embeds `_detect_brand_spoofing`.  The `full_url` argument is accepted (as
in the source) but never inspected by the body. -/
def detect_brand_spoofing (hostname _full_url : List Char) : Nat :=
  if is_legitimate_domain hostname = 1 then 0
  else if brand_keywords.any (fun brand =>
    containsSub brand hostname &&
    (match legitimate_brand_domains.find? (fun p => p.1 == brand) with
     | some p =>
       !(p.2.any (fun d => hostname == d || List.isSuffixOf ('.' :: d) hostname)) &&
       ((suspicious_indicators brand).any (fun ind => containsSub ind hostname) ||
        detect_suspicious_tld hostname == 1)
     | none => false))
  then 1 else 0

/-- Lower-case ASCII letter test, the class `[a-z]` of the substitution
patterns (the input is already lower-cased when they are applied). -/
def isLowerAlpha (c : Char) : Bool := 'a' ≤ c && c ≤ 'z'

/-- Character-class matching at the head of a list: one class per position. -/
def matchClasses : List (List Char) → List Char → Bool
  | [], _ => true
  | _ :: _, [] => false
  | cls :: ps, c :: cs => cls.contains c && matchClasses ps cs

/-- `re.search` of a character-class pattern: a match at some position. -/
def searchClasses (p : List (List Char)) : List Char → Bool
  | [] => matchClasses p []
  | c :: cs => matchClasses p (c :: cs) || searchClasses p cs

/-- After two copies of `d`: skip further copies of `d`, then require a
lower-case letter (tail of the `[a-z]+[d]{2,}[a-z]+` patterns). -/
def runThenLetter (d : Char) : List Char → Bool
  | [] => false
  | c :: cs => if c = d then runThenLetter d cs else isLowerAlpha c

/-- Two copies of `d` followed by `runThenLetter`. -/
def twoThenRun (d : Char) : List Char → Bool
  | c1 :: c2 :: cs => c1 = d && c2 = d && runThenLetter d cs
  | _ => false

/-- `re.search` of `[a-z]+[d]{2,}[a-z]+`: a letter somewhere, immediately
followed by at least two copies of `d` whose run is followed by a letter. -/
def letterRunLetter (d : Char) : List Char → Bool
  | [] => false
  | c :: cs => (isLowerAlpha c && twoThenRun d cs) || letterRunLetter d cs

/-- Character-class form of the pattern `p[a4@]yp[a4@]l`. -/
def paypal_pattern : List (List Char) :=
  [['p'], ['a', '4', '@'], ['y'], ['p'], ['a', '4', '@'], ['l']]

/-- Character-class form of the pattern `g[o0@]{2}gle`. -/
def google_pattern : List (List Char) :=
  [['g'], ['o', '0', '@'], ['o', '0', '@'], ['g'], ['l'], ['e']]

/-- Character-class form of the pattern `micr[o0]s[o0]ft`. -/
def microsoft_pattern : List (List Char) :=
  [['m'], ['i'], ['c'], ['r'], ['o', '0'], ['s'], ['o', '0'], ['f'], ['t']]

/-- Character-class form of the pattern `fac[e3]b[o0]{2}k`. -/
def facebook_pattern : List (List Char) :=
  [['f'], ['a'], ['c'], ['e', '3'], ['b'], ['o', '0'], ['o', '0'], ['k']]

/-- Character-class form of the pattern `n[e3]tfl[i1]x`. -/
def netflix_pattern : List (List Char) :=
  [['n'], ['e', '3'], ['t'], ['f'], ['l'], ['i', '1'], ['x']]

/-- The `suspicious_patterns` battery of `_detect_character_substitution`,
applied to the second-level domain label. -/
def suspicious_patterns_match (m : List Char) : Bool :=
  searchClasses paypal_pattern m || searchClasses google_pattern m ||
  searchClasses microsoft_pattern m || letterRunLetter '0' m ||
  letterRunLetter '4' m || searchClasses facebook_pattern m ||
  searchClasses netflix_pattern m

/-- The word alternatives of the benign numbered-subdomain regex
`^(web|app|mail|cdn|api|server|host|node)\d+\.`. -/
def benign_prefix_words : List (List Char) :=
  [str "web", str "app", str "mail", str "cdn", str "api", str "server", str "host", str "node"]

/-- One or more digits followed by a literal dot, at the head of the list
(the `\d+\.` tail of the benign numbered-subdomain regex). -/
def digitsDotAux : List Char → Bool
  | [] => false
  | c :: cs => c = '.' || (c.isDigit && digitsDotAux cs)

/-- Head of the list is `\d+\.`: a digit, then more digits up to a dot. -/
def digitsDot : List Char → Bool
  | [] => false
  | c :: cs => c.isDigit && digitsDotAux cs

/-- `re.match(r'^(web|app|mail|cdn|api|server|host|node)\d+\.', hostname)`. -/
def benign_numeric_prefix (hostname : List Char) : Bool :=
  benign_prefix_words.any (fun w => w.isPrefixOf hostname && digitsDot (hostname.drop w.length))

/-- Embeds `_detect_character_substitution`. -/
def detect_character_substitution (hostname : List Char) : Nat :=
  if is_legitimate_domain hostname = 1 then 0
  else if benign_numeric_prefix hostname then 0
  else
    let parts := List.splitOn '.' hostname
    if parts.length < 2 then 0
    else if suspicious_patterns_match (parts.getD (parts.length - 2) []) then 1 else 0

/-- The `domain_suspicious_keywords` list of `_detect_suspicious_keywords`. -/
def domain_suspicious_keywords : List (List Char) :=
  [str "verify", str "suspended", str "locked", str "urgent", str "alert",
   str "warning", str "confirm", str "validate", str "fake", str "deal"]

/-- The `path_suspicious_keywords` list of `_detect_suspicious_keywords`. -/
def path_suspicious_keywords : List (List Char) :=
  [str "suspend", str "locked", str "urgent", str "immediate"]

/-- Fuel-indexed helper for `split_tail`; the fuel only forces totality and
`s.length` fuel is always enough when `sep` is nonempty. -/
def splitTailFuel (sep : List Char) : Nat → List Char → List Char
  | 0, _ => []
  | _ + 1, [] => []
  | n + 1, c :: cs =>
    if sep.isPrefixOf (c :: cs) then
      let rest := (c :: cs).drop sep.length
      if containsSub sep rest then splitTailFuel sep n rest else rest
    else splitTailFuel sep n cs

/-- Python's `s.split(sep)[-1]` for nonempty `sep` occurring in `s`: the
suffix after the last occurrence found by the left-to-right non-overlapping
scan.  (When `sep` does not occur the caller never uses the result.) -/
def split_tail (sep s : List Char) : List Char := splitTailFuel sep s.length s

/-- Embeds `_detect_suspicious_keywords`, including its derivation of the
"path" as `full_url.split(hostname)[-1]`. -/
def detect_suspicious_keywords (full_url hostname : List Char) : Nat :=
  if is_legitimate_domain hostname = 1 then 0
  else if domain_suspicious_keywords.any (fun k => containsSub k hostname) then 1
  else
    let path := if containsSub hostname full_url then split_tail hostname full_url else []
    if path_suspicious_keywords.any (fun k => containsSub k path) &&
       (detect_suspicious_tld hostname = 1 || has_ip_address hostname = 1 ||
        full_url.contains '@')
    then 1 else 0

/-- Embeds `_is_url_shortener`. -/
def is_url_shortener (hostname : List Char) : Nat :=
  if url_shorteners.contains (removeWWW hostname) then 1 else 0

/-- Embeds `_has_excessive_subdomains`. -/
def has_excessive_subdomains (hostname : List Char) : Nat :=
  if (List.splitOn '.' hostname).length > 5 then 1 else 0

/-- The `brand_action_combos` table of
`_detect_suspicious_keyword_combinations`. -/
def brand_action_combos : List (List Char × List Char) :=
  [(str "paypal", str "verify"),
   (str "paypal", str "security"),
   (str "paypal", str "suspended"),
   (str "amazon", str "verify"),
   (str "amazon", str "suspended"),
   (str "amazon", str "update"),
   (str "microsoft", str "security"),
   (str "microsoft", str "verify"),
   (str "google", str "verify"),
   (str "google", str "suspended"),
   (str "apple", str "verify"),
   (str "whatsapp", str "verify"),
   (str "whatsapp", str "suspended"),
   (str "whatsapp", str "banned"),
   (str "account", str "suspended"),
   (str "account", str "locked"),
   (str "security", str "alert"),
   (str "urgent", str "verify"),
   (str "confirm", str "identity")]

/-- Embeds `_detect_suspicious_keyword_combinations`. -/
def detect_suspicious_keyword_combinations (full_url hostname : List Char) : Nat :=
  if is_legitimate_domain hostname = 1 then 0
  else if brand_action_combos.any
    (fun p => containsSub p.1 full_url && containsSub p.2 full_url) then 1 else 0

/-- The 17-field feature vector schema of `extract_features`. -/
structure Features where
  url_length : Nat
  num_dots : Nat
  num_hyphens : Nat
  num_digits : Nat
  has_at_symbol : Nat
  num_params : Nat
  has_ip : Nat
  is_https : Nat
  path_length : Nat
  domain_length : Nat
  has_brand_spoofing : Nat
  has_suspicious_tld : Nat
  has_character_substitution : Nat
  has_suspicious_keywords : Nat
  is_url_shortener : Nat
  excessive_subdomains : Nat
  suspicious_keyword_combo : Nat
deriving DecidableEq, Repr

/-- Embeds `_get_default_features`: the all-zero vector. -/
def default_features : Features :=
  ⟨0, 0, 0, 0, 0, 0, 0, 0, 0, 0, 0, 0, 0, 0, 0, 0, 0⟩

/-- Embeds `extract_features` on string input: empty input and input whose
parse has no authority short-circuit to the default vector, otherwise every
field is assembled from the parsed views exactly as in the source. -/
def extract_features (url : List Char) : Features :=
  if url = [] then default_features
  else
    let parsed := urlparse url
    if parsed.netloc = [] then default_features
    else
      let hostname := toLowerL parsed.netloc
      let full_url := toLowerL url
      { url_length := min url.length 150
        num_dots := min (url.count '.') 5
        num_hyphens := min (url.count '-') 5
        num_digits := min (url.countP (fun c => c.isDigit)) 10
        has_at_symbol := if url.contains '@' then 1 else 0
        num_params := min (url.count '=') 5
        has_ip := has_ip_address hostname
        is_https := if parsed.scheme = str "https" then 1 else 0
        path_length := min parsed.path.length 100
        domain_length := min parsed.netloc.length 50
        has_brand_spoofing := detect_brand_spoofing hostname full_url
        has_suspicious_tld := detect_suspicious_tld hostname
        has_character_substitution := detect_character_substitution hostname
        has_suspicious_keywords := detect_suspicious_keywords full_url hostname
        is_url_shortener := is_url_shortener hostname
        excessive_subdomains := has_excessive_subdomains hostname
        suspicious_keyword_combo := detect_suspicious_keyword_combinations full_url hostname }

/-- An input value for `extract_features` as the Python code receives it:
either not a string at all, or a string. -/
inductive URLValue where
  | notString : URLValue
  | ofString : List Char → URLValue

/-- Embeds the `not url or not isinstance(url, str)` guard of
`extract_features`: non-string input yields the default vector. -/
def extract_features_any : URLValue → Features
  | .notString => default_features
  | .ofString s => extract_features s

/-- Follows the words of claim C2 (not the source): strip one leading `www.`
prefix, then test equality with or `.`-boundary suffix of a whitelist
entry. -/
def claimed_legitimate_strip_leading (hostname : List Char) : Bool :=
  let clean := if (str "www.").isPrefixOf hostname then hostname.drop 4 else hostname
  legitimate_domains.any (fun d => clean == d || List.isSuffixOf ('.' :: d) clean)

/-- Follows the words of claim C5 (not the source): path-level keywords are
sought in the parsed path component rather than in the source's
`full_url.split(hostname)[-1]`. -/
def claimed_suspicious_keywords (url : List Char) : Bool :=
  let parsed := urlparse url
  let hostname := toLowerL parsed.netloc
  let full_url := toLowerL url
  domain_suspicious_keywords.any (fun k => containsSub k hostname) ||
  (path_suspicious_keywords.any (fun k => containsSub k (toLowerL parsed.path)) &&
   (detect_suspicious_tld hostname = 1 || has_ip_address hostname = 1 ||
    full_url.contains '@'))

/-- The lower-case host alphabet used to quantify over subdomain labels in
the amended claim C1. -/
def host_chars : List Char := str "abcdefghijklmnopqrstuvwxyz0123456789-."

/-- The four veto-gated spoofing-style detectors all output 0 on the URL
`https://host/anything`. -/
abbrev veto_features_zero (host : List Char) : Prop :=
  (extract_features (str "https://" ++ host ++ str "/anything")).has_brand_spoofing = 0 ∧
  (extract_features (str "https://" ++ host ++ str "/anything")).has_character_substitution = 0 ∧
  (extract_features (str "https://" ++ host ++ str "/anything")).has_suspicious_keywords = 0 ∧
  (extract_features (str "https://" ++ host ++ str "/anything")).suspicious_keyword_combo = 0

/-! ## Bridging lemmas between the executable Bool tests and their Prop forms -/

/-- Bool-level list-prefix test agrees with `<+:`. -/
theorem isPrefixOf_true_iff (a b : List Char) : a.isPrefixOf b = true ↔ a <+: b :=
  List.isPrefixOf_iff_prefix

/-- Bool-level list-suffix test agrees with `<:+`. -/
theorem isSuffixOf_true_iff (a b : List Char) : a.isSuffixOf b = true ↔ a <:+ b :=
  List.isSuffixOf_iff_suffix

/-- The Python substring test agrees with the contiguous-sublist relation. -/
theorem containsSub_true_iff (pat s : List Char) : containsSub pat s = true ↔ pat <:+: s := by
  induction s with
  | nil =>
    rw [containsSub, isPrefixOf_true_iff, List.infix_nil, List.prefix_nil]
  | cons c cs ih =>
    rw [containsSub, Bool.or_eq_true, isPrefixOf_true_iff, ih, List.infix_cons_iff]

/-- Character containment agrees with list membership. -/
theorem contains_char_iff (s : List Char) (c : Char) : s.contains c = true ↔ c ∈ s := by
  simp [List.contains]

/-- Containment in a list of strings agrees with membership. -/
theorem contains_list_iff (l : List (List Char)) (a : List Char) :
    l.contains a = true ↔ a ∈ l := by
  simp [List.contains]


/-! ## Properties of the `www.`-removal step -/

/-- Reduction of `removeWWW` on a cons cell that does not open a `www.`
occurrence. -/
theorem removeWWW_cons (c : Char) (rest : List Char)
    (h2 : ∀ r, c = 'w' → rest = 'w' :: 'w' :: '.' :: r → False) :
    removeWWW (c :: rest) = c :: removeWWW rest := by
  rw [removeWWW.eq_def]
  split
  · rename_i r heq
    rw [List.cons.injEq] at heq
    exact (h2 r heq.1 heq.2).elim
  · rename_i c' r h3 heq
    rw [List.cons.injEq] at heq
    rw [heq.1, heq.2]
  · rename_i heq
    simp at heq

/-- A string with no `www.` occurrence is left unchanged by `removeWWW`. -/
theorem removeWWW_id (s : List Char) (h : containsSub (str "www.") s = false) :
    removeWWW s = s := by
  induction s using removeWWW.induct with
  | case1 rest ih =>
    simp [containsSub, List.isPrefixOf, str] at h
  | case2 c rest h2 ih =>
    rw [removeWWW_cons c rest h2]
    simp only [containsSub, Bool.or_eq_false_iff] at h
    rw [ih h.2]
  | case3 => rfl

/-- Removal of `www.` occurrences never touches a final character other than
`.`. -/
theorem removeWWW_getLast (s : List Char) (c : Char) (hc : c ≠ '.')
    (h : s.getLast? = some c) : (removeWWW s).getLast? = some c := by
  induction s using removeWWW.induct with
  | case1 rest ih =>
    show (removeWWW rest).getLast? = some c
    apply ih
    cases rest with
    | nil =>
      simp at h
      exact (hc h.symm).elim
    | cons a as => simpa using h
  | case2 c' rest h2 ih =>
    rw [removeWWW_cons c' rest h2]
    cases rest with
    | nil => exact h
    | cons a as =>
      have h' : (a :: as).getLast? = some c := by simpa using h
      have hrw := ih h'
      cases hl : removeWWW (a :: as) with
      | nil => rw [hl] at hrw; simp at hrw
      | cons b bs =>
        rw [hl] at hrw
        rw [List.getLast?_cons_cons]
        exact hrw
  | case3 => simp at h

/-! ## Properties of the ASCII lower-casing -/

/-- Characters below code point 65 (digits, punctuation, `:`) are fixed by
`lowerChar`. -/
theorem lowerChar_of_lt (c : Char) (h : c.toNat < 65) : lowerChar c = c := by
  unfold lowerChar
  rw [if_neg]
  omega

/-- Lower-casing distributes over concatenation. -/
theorem toLowerL_append (a b : List Char) : toLowerL (a ++ b) = toLowerL a ++ toLowerL b :=
  List.map_append ..

/-- Lower-casing of a cons cell. -/
theorem toLowerL_cons (c : Char) (s : List Char) :
    toLowerL (c :: s) = lowerChar c :: toLowerL s := rfl

/-- A string all of whose characters are fixed by `lowerChar` is fixed by
`toLowerL`. -/
theorem toLowerL_id_of (s : List Char) (h : ∀ c ∈ s, lowerChar c = c) : toLowerL s = s := by
  unfold toLowerL
  rw [List.map_congr_left h]
  simp

/-! ## Parsing and assembling lemmas -/

/-- Parsing of `https://HOST/anything` when the host contains no authority
delimiter: the authority is exactly the host and the path is `/anything`. -/
theorem urlparse_https (H : List Char) (hH : ∀ c ∈ H, isNetlocDelim c = false) :
    urlparse (str "https://" ++ H ++ str "/anything") =
      ⟨str "https", H, str "/anything", [], [], []⟩ := by
  have hH' : ∀ c ∈ H, (!isNetlocDelim c) = true := fun c hc => by rw [hH c hc]; rfl
  have e1a : (scheme_split (str "https://" ++ H ++ str "/anything")).1 = str "https" := rfl
  have e1b : (scheme_split (str "https://" ++ H ++ str "/anything")).2 =
      '/' :: '/' :: (H ++ str "/anything") := rfl
  have e2a : (netloc_split ('/' :: '/' :: (H ++ str "/anything"))).1 = H := by
    show (H ++ str "/anything").takeWhile (fun c => !isNetlocDelim c) = H
    rw [List.takeWhile_append_of_pos hH']
    rw [show List.takeWhile (fun c => !isNetlocDelim c) (str "/anything") = [] from rfl]
    exact List.append_nil H
  have e2b : (netloc_split ('/' :: '/' :: (H ++ str "/anything"))).2 = str "/anything" := by
    show (H ++ str "/anything").dropWhile (fun c => !isNetlocDelim c) = str "/anything"
    rw [List.dropWhile_append_of_pos hH']
    rfl
  simp only [urlparse]
  rw [e1b, e2a, e2b, e1a]
  rfl

/-- Unfolding of `extract_features` on input that parses with a nonempty
authority. -/
theorem extract_features_def (url : List Char) (h1 : url ≠ [])
    (h2 : (urlparse url).netloc ≠ []) :
    extract_features url =
      { url_length := min url.length 150
        num_dots := min (url.count '.') 5
        num_hyphens := min (url.count '-') 5
        num_digits := min (url.countP (fun c => c.isDigit)) 10
        has_at_symbol := if url.contains '@' then 1 else 0
        num_params := min (url.count '=') 5
        has_ip := has_ip_address (toLowerL (urlparse url).netloc)
        is_https := if (urlparse url).scheme = str "https" then 1 else 0
        path_length := min (urlparse url).path.length 100
        domain_length := min (urlparse url).netloc.length 50
        has_brand_spoofing := detect_brand_spoofing (toLowerL (urlparse url).netloc) (toLowerL url)
        has_suspicious_tld := detect_suspicious_tld (toLowerL (urlparse url).netloc)
        has_character_substitution := detect_character_substitution (toLowerL (urlparse url).netloc)
        has_suspicious_keywords := detect_suspicious_keywords (toLowerL url) (toLowerL (urlparse url).netloc)
        is_url_shortener := is_url_shortener (toLowerL (urlparse url).netloc)
        excessive_subdomains := has_excessive_subdomains (toLowerL (urlparse url).netloc)
        suspicious_keyword_combo := detect_suspicious_keyword_combinations (toLowerL url) (toLowerL (urlparse url).netloc) } := by
  simp only [extract_features]
  rw [if_neg h1, if_neg h2]

/-! ## Legitimacy-check lemmas -/

/-- The whitelist check succeeds whenever the cleaned host ends with `.` +
a registry entry. -/
theorem is_legit_of_entry_suffix (hostname d : List Char) (hd : d ∈ legitimate_domains)
    (hsuf : ('.' :: d) <:+ removeWWW hostname) : is_legitimate_domain hostname = 1 := by
  simp only [is_legitimate_domain]
  by_cases hcon : legitimate_domains.contains (removeWWW hostname) = true
  · rw [if_pos hcon]
  · rw [if_neg hcon, if_pos]
    exact List.any_eq_true.mpr ⟨d, hd, by
      rw [Bool.or_eq_true, isSuffixOf_true_iff]
      exact Or.inr hsuf⟩

/-- Characterisation of the whitelist check: it succeeds exactly when the
host with every `www.` occurrence removed equals a registry entry or ends
with `.` + a registry entry. -/
theorem is_legit_iff (hostname : List Char) :
    is_legitimate_domain hostname = 1 ↔
      ∃ d ∈ legitimate_domains,
        removeWWW hostname = d ∨ ('.' :: d) <:+ removeWWW hostname := by
  simp only [is_legitimate_domain]
  by_cases hcon : legitimate_domains.contains (removeWWW hostname) = true
  · rw [if_pos hcon]
    refine ⟨fun _ => ⟨removeWWW hostname, ?_, Or.inl rfl⟩, fun _ => rfl⟩
    exact (contains_list_iff _ _).mp hcon
  · rw [if_neg hcon]
    by_cases hany : legitimate_domains.any
        (fun d => removeWWW hostname == d || List.isSuffixOf ('.' :: d) (removeWWW hostname)) = true
    · rw [if_pos hany]
      refine ⟨fun _ => ?_, fun _ => rfl⟩
      obtain ⟨d, hd, hb⟩ := List.any_eq_true.mp hany
      rw [Bool.or_eq_true, beq_iff_eq, isSuffixOf_true_iff] at hb
      exact ⟨d, hd, hb⟩
    · rw [if_neg hany]
      refine ⟨fun h0 => absurd h0 (by decide), fun hex => absurd ?_ hany⟩
      obtain ⟨d, hd, hb⟩ := hex
      refine List.any_eq_true.mpr ⟨d, hd, ?_⟩
      rw [Bool.or_eq_true, beq_iff_eq, isSuffixOf_true_iff]
      exact hb

/-! ## The legitimacy veto inside the four spoofing-style detectors -/

/-- Brand-spoofing detection is vetoed on whitelisted hosts. -/
theorem brand_spoofing_veto (hostname fu : List Char)
    (h : is_legitimate_domain hostname = 1) : detect_brand_spoofing hostname fu = 0 := by
  unfold detect_brand_spoofing
  rw [if_pos h]

/-- Character-substitution detection is vetoed on whitelisted hosts. -/
theorem char_substitution_veto (hostname : List Char)
    (h : is_legitimate_domain hostname = 1) : detect_character_substitution hostname = 0 := by
  unfold detect_character_substitution
  rw [if_pos h]

/-- Suspicious-keyword detection is vetoed on whitelisted hosts. -/
theorem keywords_veto (fu hostname : List Char)
    (h : is_legitimate_domain hostname = 1) : detect_suspicious_keywords fu hostname = 0 := by
  unfold detect_suspicious_keywords
  rw [if_pos h]

/-- Keyword-combination detection is vetoed on whitelisted hosts. -/
theorem combo_veto (fu hostname : List Char)
    (h : is_legitimate_domain hostname = 1) :
    detect_suspicious_keyword_combinations fu hostname = 0 := by
  unfold detect_suspicious_keyword_combinations
  rw [if_pos h]

/-! ## Finite facts about the registries, checked by evaluation -/

set_option maxRecDepth 4000

/-- Every whitelist entry passes the whitelist check, as does its
`www.`-prefixed variant; entries contain no authority delimiter, are
lower-case and nonempty. -/
theorem legit_entries_facts : ∀ h ∈ legitimate_domains,
    is_legitimate_domain h = 1 ∧ is_legitimate_domain (str "www." ++ h) = 1 ∧
    (∀ c ∈ h, isNetlocDelim c = false ∧ lowerChar c = c) ∧ h ≠ [] := by decide

/-- The subdomain-label alphabet contains no authority delimiter and is fixed
by lower-casing. -/
theorem host_chars_facts : ∀ c ∈ host_chars, isNetlocDelim c = false ∧ lowerChar c = c := by
  decide

/-- The characters of the literal `www.` prefix. -/
theorem www_chars_facts : ∀ c ∈ str "www.", isNetlocDelim c = false ∧ lowerChar c = c := by
  decide

/-- Every whitelist entry ends with a lower-case letter. -/
theorem legit_entries_last : ∀ d ∈ legitimate_domains,
    97 ≤ (d.getLastD ' ').toNat ∧ d ≠ [] := by decide

/-! ## A host whose final character is not a letter never matches the
whitelist -/

/-- On a nonempty list, `getLast?` returns the `getLastD` default-free
value. -/
theorem getLast?_eq_getLastD (l : List Char) (hne : l ≠ []) :
    l.getLast? = some (l.getLastD ' ') := by
  rw [List.getLastD_eq_getLast?]
  rcases hl : l.getLast? with _ | c
  · exact absurd (List.getLast?_eq_none_iff.mp hl) hne
  · rfl

/-- An ASCII digit has code point between 48 and 57. -/
theorem isDigit_toNat_bounds (c : Char) (h : c.isDigit = true) :
    48 ≤ c.toNat ∧ c.toNat ≤ 57 := by
  simp [Char.isDigit, Char.le_def] at h
  exact h

/-- An ASCII digit has code point below 65. -/
theorem toNat_lt_of_isDigit (c : Char) (h : c.isDigit = true) : c.toNat < 65 := by
  have := isDigit_toNat_bounds c h
  omega

/-- If the cleaned host ends in a character that is not a lower-case letter,
the whitelist check fails: every registry entry ends with a letter, and both
the equality test and the `.`-boundary suffix test force the final characters
to agree. -/
theorem not_legit_of_getLast (hostname : List Char) (c0 : Char)
    (h : (removeWWW hostname).getLast? = some c0) (hc : c0.toNat < 97) :
    is_legitimate_domain hostname = 0 := by
  have key : ∀ d ∈ legitimate_domains,
      (removeWWW hostname = d ∨ ('.' :: d) <:+ removeWWW hostname) → False := by
    intro d hd hor
    obtain ⟨hlet, hdne⟩ := legit_entries_last d hd
    have hdl : d.getLast? = some (d.getLastD ' ') := getLast?_eq_getLastD d hdne
    rcases hor with heq | hsuf
    · rw [heq, hdl] at h
      rw [Option.some.injEq] at h
      rw [h] at hlet
      omega
    · obtain ⟨t, ht⟩ := hsuf
      rw [← ht] at h
      rw [List.getLast?_append] at h
      have hcd : ('.' :: d).getLast? = some (d.getLastD ' ') := by
        rw [show ('.' :: d) = ['.'] ++ d from rfl, List.getLast?_append, hdl]
        rfl
      rw [hcd] at h
      rw [Option.or, Option.some.injEq] at h
      rw [h] at hlet
      omega
  simp only [is_legitimate_domain]
  rw [if_neg, if_neg]
  · intro hany
    obtain ⟨d, hd, hb⟩ := List.any_eq_true.mp hany
    rw [Bool.or_eq_true, beq_iff_eq, isSuffixOf_true_iff] at hb
    exact key d hd hb
  · intro hcon
    exact key _ ((contains_list_iff _ _).mp hcon) (Or.inl rfl)

/-- An authority carrying an explicit (all-digit, possibly empty) port never
passes the whitelist check. -/
theorem port_never_whitelisted (h p : List Char) (hp : ∀ c ∈ p, c.isDigit = true) :
    is_legitimate_domain (toLowerL (h ++ ':' :: p)) = 0 := by
  have hplow : toLowerL p = p :=
    toLowerL_id_of p (fun c hc => lowerChar_of_lt c (toNat_lt_of_isDigit c (hp c hc)))
  have hlow : toLowerL (h ++ ':' :: p) = toLowerL h ++ ':' :: p := by
    rw [toLowerL_append, toLowerL_cons, lowerChar_of_lt ':' (by decide), hplow]
  rw [hlow]
  have hlast : ∃ c0, (toLowerL h ++ ':' :: p).getLast? = some c0 ∧
      47 < c0.toNat ∧ c0.toNat < 65 := by
    by_cases hpe : p = []
    · subst hpe
      refine ⟨':', ?_, by decide, by decide⟩
      rw [List.getLast?_append]
      rfl
    · refine ⟨p.getLastD ' ', ?_, ?_⟩
      · rw [List.getLast?_append]
        rw [show (':' :: p) = [':'] ++ p from rfl, List.getLast?_append,
          getLast?_eq_getLastD p hpe]
        rfl
      · have hmem : p.getLastD ' ' ∈ p := by
          have := List.getLast_mem (l := p) hpe
          rwa [show p.getLast hpe = p.getLastD ' ' by
            have h1 := getLast?_eq_getLastD p hpe
            have h2 := List.getLast?_eq_getLast p hpe
            rw [h1] at h2
            exact (Option.some.injEq .. |>.mp h2.symm)] at this
        have := isDigit_toNat_bounds _ (hp _ hmem)
        omega
  obtain ⟨c0, hc0, hgt, hlt⟩ := hlast
  have hne : c0 ≠ '.' := by
    intro heq
    rw [heq] at hgt
    have hdot : ('.' : Char).toNat = 46 := by decide
    omega
  exact not_legit_of_getLast _ c0 (removeWWW_getLast _ c0 hne hc0) (by omega)

/-! ## The veto engine for whitelisted hosts of well-formed URLs -/

/-- Whenever `host` is delimiter-free, lower-case, nonempty and passes the
whitelist check, the four veto-gated detectors output 0 on
`https://host/anything`. -/
theorem veto_features_zero_of (host : List Char)
    (hdelim : ∀ c ∈ host, isNetlocDelim c = false)
    (hlower : toLowerL host = host)
    (hne : host ≠ [])
    (hlegit : is_legitimate_domain host = 1) : veto_features_zero host := by
  have hp := urlparse_https host hdelim
  have hnet : (urlparse (str "https://" ++ host ++ str "/anything")).netloc = host := by
    rw [hp]
  have hurlne : (str "https://" ++ host ++ str "/anything") ≠ [] := by
    simp [str]
  have hnetne : (urlparse (str "https://" ++ host ++ str "/anything")).netloc ≠ [] := by
    rw [hnet]
    exact hne
  refine ⟨?_, ?_, ?_, ?_⟩
  · rw [extract_features_def _ hurlne hnetne]
    show detect_brand_spoofing
      (toLowerL (urlparse (str "https://" ++ host ++ str "/anything")).netloc)
      (toLowerL (str "https://" ++ host ++ str "/anything")) = 0
    rw [hnet, hlower]
    exact brand_spoofing_veto _ _ hlegit
  · rw [extract_features_def _ hurlne hnetne]
    show detect_character_substitution
      (toLowerL (urlparse (str "https://" ++ host ++ str "/anything")).netloc) = 0
    rw [hnet, hlower]
    exact char_substitution_veto _ hlegit
  · rw [extract_features_def _ hurlne hnetne]
    show detect_suspicious_keywords
      (toLowerL (str "https://" ++ host ++ str "/anything"))
      (toLowerL (urlparse (str "https://" ++ host ++ str "/anything")).netloc) = 0
    rw [hnet, hlower]
    exact keywords_veto _ _ hlegit
  · rw [extract_features_def _ hurlne hnetne]
    show detect_suspicious_keyword_combinations
      (toLowerL (str "https://" ++ host ++ str "/anything"))
      (toLowerL (urlparse (str "https://" ++ host ++ str "/anything")).netloc) = 0
    rw [hnet, hlower]
    exact combo_veto _ _ hlegit

/-! ## Claim C1 -/

/-- C1 (amended): for every whitelist entry `h`, the URL
`https://h/anything`, its `www.`-prefixed variant and every dot-suffixed
variant `x.h` over the host alphabet whose full host contains no occurrence
of `www.` yield `has_brand_spoofing = has_character_substitution =
has_suspicious_keywords = suspicious_keyword_combo = 0`.  The `www.`-freeness
proviso is forced by the source's `hostname.replace('www.', '')`, which
deletes every occurrence, so labels such as `awww` defeat the veto. -/
theorem c1_legitimacy_veto :
    (∀ h ∈ legitimate_domains, veto_features_zero h) ∧
    (∀ h ∈ legitimate_domains, veto_features_zero (str "www." ++ h)) ∧
    (∀ h ∈ legitimate_domains, ∀ x : List Char, (∀ c ∈ x, c ∈ host_chars) →
      containsSub (str "www.") (x ++ '.' :: h) = false →
      veto_features_zero (x ++ '.' :: h)) := by
  refine ⟨?_, ?_, ?_⟩
  · intro h hh
    obtain ⟨l1, _, lchars, lne⟩ := legit_entries_facts h hh
    exact veto_features_zero_of h (fun c hc => (lchars c hc).1)
      (toLowerL_id_of h (fun c hc => (lchars c hc).2)) lne l1
  · intro h hh
    obtain ⟨_, l2, lchars, _⟩ := legit_entries_facts h hh
    have hchars : ∀ c ∈ str "www." ++ h, isNetlocDelim c = false ∧ lowerChar c = c := by
      intro c hc
      rcases List.mem_append.mp hc with hcw | hch
      · exact www_chars_facts c hcw
      · exact lchars c hch
    refine veto_features_zero_of _ (fun c hc => (hchars c hc).1)
      (toLowerL_id_of _ (fun c hc => (hchars c hc).2)) (by simp [str]) l2
  · intro h hh x hx hww
    obtain ⟨_, _, lchars, _⟩ := legit_entries_facts h hh
    have hchars : ∀ c ∈ x ++ '.' :: h, isNetlocDelim c = false ∧ lowerChar c = c := by
      intro c hc
      rcases List.mem_append.mp hc with hcx | hch
      · exact host_chars_facts c (hx c hcx)
      · rcases List.mem_cons.mp hch with hdot | hch'
        · rw [hdot]
          exact ⟨by decide, by decide⟩
        · exact lchars c hch'
    have hlegit : is_legitimate_domain (x ++ '.' :: h) = 1 := by
      apply is_legit_of_entry_suffix _ h hh
      rw [removeWWW_id _ hww]
      exact List.suffix_append x ('.' :: h)
    exact veto_features_zero_of _ (fun c hc => (hchars c hc).1)
      (toLowerL_id_of _ (fun c hc => (hchars c hc).2)) (by simp) hlegit

/-- C1 counterexample to the claim as stated: `awww.google.com` is a
dot-suffixed variant of the whitelist entry `google.com` over the host
alphabet, yet the character-substitution detector fires on it, because
`replace('www.', '')` mangles the host to `agoogle.com`, which no longer
matches the whitelist, and the label `google` matches the look-alike pattern
`g[o0@]{2}gle`. -/
theorem c1_dot_variant_counterexample :
    str "google.com" ∈ legitimate_domains ∧
    str "awww" ++ '.' :: str "google.com" = str "awww.google.com" ∧
    (∀ c ∈ str "awww", c ∈ host_chars) ∧
    (extract_features (str "https://awww.google.com/anything")).has_character_substitution
      = 1 := by
  decide

/-- C1 witness: the amended theorem applied to the entry `google.com` and
the label `mail`. -/
theorem c1_witness : veto_features_zero (str "mail" ++ '.' :: str "google.com") :=
  c1_legitimacy_veto.2.2 (str "google.com") (by decide) (str "mail") (by decide) (by decide)

/-! ## Claim C2 -/

/-- C2 counterexample to the claim as stated: the host `googwww.le.com` does
not start with `www.`, equals no whitelist entry and ends with no
`.`-prefixed entry, so under the claimed "strip one leading `www.` prefix"
semantics it is not legitimate; yet the source's `replace('www.', '')`
deletes the interior occurrence, yielding `google.com`, and the check
accepts it. -/
theorem c2_interior_www_counterexample :
    is_legitimate_domain (str "googwww.le.com") = 1 ∧
    claimed_legitimate_strip_leading (str "googwww.le.com") = false := by
  decide

/-- C2 (amended): the whitelist check succeeds exactly when the host with
EVERY occurrence of `www.` removed equals a registry entry or ends with `.`
+ a registry entry; in particular no naive substring containment matches:
`evil-google.com.evil.tk` is rejected. -/
theorem c2_whitelist_semantics :
    (∀ hostname : List Char,
      is_legitimate_domain hostname = 1 ↔
        ∃ d ∈ legitimate_domains,
          removeWWW hostname = d ∨ ('.' :: d) <:+ removeWWW hostname) ∧
    is_legitimate_domain (str "evil-google.com.evil.tk") = 0 :=
  ⟨is_legit_iff, by decide⟩

/-- C2 witness: the characterisation applied to `mail.google.com`. -/
theorem c2_witness : is_legitimate_domain (str "mail.google.com") = 1 :=
  (c2_whitelist_semantics.1 (str "mail.google.com")).mpr
    ⟨str "google.com", by decide, Or.inr (by decide)⟩

/-! ## Claim C3 -/

/-- C3 counterexample to the claim as stated: `t.co` passes the legitimacy
check (it is a whitelist entry) yet `is_url_shortener` fires on it, and
`a.b.c.d.e.google.com` passes the check yet `excessive_subdomains` fires:
these detectors never consult the whitelist. -/
theorem c3_unvetoed_detectors_counterexample :
    is_legitimate_domain (str "t.co") = 1 ∧
    (extract_features (str "https://t.co/x")).is_url_shortener = 1 ∧
    is_legitimate_domain (str "a.b.c.d.e.google.com") = 1 ∧
    (extract_features (str "https://a.b.c.d.e.google.com/x")).excessive_subdomains = 1 := by
  decide

/-- C3 (amended): on every successfully parsed URL whose host passes the
legitimacy check, the four veto-gated detectors (`has_brand_spoofing`,
`has_character_substitution`, `has_suspicious_keywords`,
`suspicious_keyword_combo`) return 0; the remaining detectors
(`has_suspicious_tld`, `is_url_shortener`, `excessive_subdomains`,
`has_ip`) do not consult the check. -/
theorem c3_veto_gated_detectors (url : List Char) (h1 : url ≠ [])
    (h2 : (urlparse url).netloc ≠ [])
    (h3 : is_legitimate_domain (toLowerL (urlparse url).netloc) = 1) :
    (extract_features url).has_brand_spoofing = 0 ∧
    (extract_features url).has_character_substitution = 0 ∧
    (extract_features url).has_suspicious_keywords = 0 ∧
    (extract_features url).suspicious_keyword_combo = 0 := by
  rw [extract_features_def url h1 h2]
  dsimp only
  exact ⟨brand_spoofing_veto _ _ h3, char_substitution_veto _ h3,
    keywords_veto _ _ h3, combo_veto _ _ h3⟩

/-- C3 witness: the amended theorem applied to `https://google.com/x`. -/
theorem c3_witness :
    (extract_features (str "https://google.com/x")).has_brand_spoofing = 0 ∧
    (extract_features (str "https://google.com/x")).has_character_substitution = 0 ∧
    (extract_features (str "https://google.com/x")).has_suspicious_keywords = 0 ∧
    (extract_features (str "https://google.com/x")).suspicious_keyword_combo = 0 :=
  c3_veto_gated_detectors (str "https://google.com/x") (by decide) (by decide) (by decide)

/-! ## Claim C4 -/

/-- C4 counterexample to the claim as stated: on
`http://192.168.1.100/paypal-login` the brand-spoofing detector returns 0,
not 1 — it inspects only the host, and the IP host contains no brand
keyword. -/
theorem c4_ip_brand_counterexample :
    ¬ ((extract_features (str "http://192.168.1.100/paypal-login")).has_ip = 1 ∧
       (extract_features (str "http://192.168.1.100/paypal-login")).is_https = 0 ∧
       (extract_features (str "http://192.168.1.100/paypal-login")).has_brand_spoofing
         = 1) := by
  decide

/-- C4 (amended): `extract("http://192.168.1.100/paypal-login")` has
`has_ip = 1` and `is_https = 0`, but `has_brand_spoofing = 0`: the
hyphenated brand token sits in the path, which the host-only detector never
sees. -/
theorem c4_ip_host_scenario :
    (extract_features (str "http://192.168.1.100/paypal-login")).has_ip = 1 ∧
    (extract_features (str "http://192.168.1.100/paypal-login")).is_https = 0 ∧
    (extract_features (str "http://192.168.1.100/paypal-login")).has_brand_spoofing = 0 := by
  decide

/-! ## Claim C5 -/

/-- C5 counterexample to the claim as stated: on `https://evil.tk/a?x=urgent`
the parsed path component is `/a`, which contains no path-level keyword, so
the claimed contract predicts 0; but the source derives its "path" as
`full_url.split(hostname)[-1] = "/a?x=urgent"`, which contains `urgent`, and
with the suspicious TLD as corroboration the detector returns 1. -/
theorem c5_query_keyword_counterexample :
    is_legitimate_domain (str "evil.tk") = 0 ∧
    (urlparse (str "https://evil.tk/a?x=urgent")).path = str "/a" ∧
    claimed_suspicious_keywords (str "https://evil.tk/a?x=urgent") = false ∧
    (extract_features (str "https://evil.tk/a?x=urgent")).has_suspicious_keywords = 1 := by
  decide

/-- C5 (amended): on every successfully parsed URL the suspicious-keyword
feature is 0 for legitimate hosts; for hosts failing the legitimacy check it
is 1 exactly when a domain-level keyword occurs in the host, or a path-level
keyword occurs in the portion of the lower-cased URL after the last
(left-to-right, non-overlapping) occurrence of the host — not the parsed
path component — together with a corroborating signal (suspicious TLD,
IP-literal host, or an `@` anywhere in the URL). -/
theorem c5_suspicious_keywords_contract (url : List Char) (h1 : url ≠ [])
    (h2 : (urlparse url).netloc ≠ []) :
    (is_legitimate_domain (toLowerL (urlparse url).netloc) = 1 →
      (extract_features url).has_suspicious_keywords = 0) ∧
    (is_legitimate_domain (toLowerL (urlparse url).netloc) = 0 →
      ((extract_features url).has_suspicious_keywords = 1 ↔
        (∃ k ∈ domain_suspicious_keywords, k <:+: toLowerL (urlparse url).netloc) ∨
        ((∃ k ∈ path_suspicious_keywords,
            k <:+: (if containsSub (toLowerL (urlparse url).netloc) (toLowerL url) = true
                    then split_tail (toLowerL (urlparse url).netloc) (toLowerL url)
                    else [])) ∧
         (detect_suspicious_tld (toLowerL (urlparse url).netloc) = 1 ∨
          has_ip_address (toLowerL (urlparse url).netloc) = 1 ∨
          '@' ∈ toLowerL url)))) := by
  rw [extract_features_def url h1 h2]
  dsimp only
  constructor
  · intro hleg
    exact keywords_veto _ _ hleg
  · intro hleg
    have hnot1 : ¬ is_legitimate_domain (toLowerL (urlparse url).netloc) = 1 := by
      rw [hleg]
      decide
    unfold detect_suspicious_keywords
    rw [if_neg hnot1]
    by_cases hdom : domain_suspicious_keywords.any
        (fun k => containsSub k (toLowerL (urlparse url).netloc)) = true
    · rw [if_pos hdom]
      refine ⟨fun _ => Or.inl ?_, fun _ => rfl⟩
      obtain ⟨k, hk, hck⟩ := List.any_eq_true.mp hdom
      exact ⟨k, hk, (containsSub_true_iff _ _).mp hck⟩
    · rw [if_neg hdom]
      constructor
      · intro hone
        by_cases hcond : (path_suspicious_keywords.any (fun k => containsSub k
              (if containsSub (toLowerL (urlparse url).netloc) (toLowerL url) = true
               then split_tail (toLowerL (urlparse url).netloc) (toLowerL url)
               else [])) &&
            (decide (detect_suspicious_tld (toLowerL (urlparse url).netloc) = 1) ||
             decide (has_ip_address (toLowerL (urlparse url).netloc) = 1) ||
             (toLowerL url).contains '@')) = true
        · rw [Bool.and_eq_true] at hcond
          obtain ⟨hpa, hco⟩ := hcond
          refine Or.inr ⟨?_, ?_⟩
          · obtain ⟨k, hk, hck⟩ := List.any_eq_true.mp hpa
            exact ⟨k, hk, (containsSub_true_iff _ _).mp hck⟩
          · rw [Bool.or_eq_true, Bool.or_eq_true] at hco
            rcases hco with (htld | hip) | hat
            · exact Or.inl (of_decide_eq_true htld)
            · exact Or.inr (Or.inl (of_decide_eq_true hip))
            · exact Or.inr (Or.inr ((contains_char_iff ..).mp hat))
        · rw [if_neg hcond] at hone
          exact absurd hone (by decide)
      · intro hrhs
        rcases hrhs with ⟨k, hk, hik⟩ | ⟨⟨k, hk, hik⟩, hco⟩
        · exact absurd (List.any_eq_true.mpr
            ⟨k, hk, (containsSub_true_iff k (toLowerL (urlparse url).netloc)).mpr hik⟩) hdom
        · rw [if_pos]
          rw [Bool.and_eq_true]
          refine ⟨List.any_eq_true.mpr ⟨k, hk, (containsSub_true_iff k
            (if containsSub (toLowerL (urlparse url).netloc) (toLowerL url) = true
             then split_tail (toLowerL (urlparse url).netloc) (toLowerL url)
             else [])).mpr hik⟩, ?_⟩
          rw [Bool.or_eq_true, Bool.or_eq_true]
          rcases hco with htld | hip | hat
          · exact Or.inl (Or.inl (decide_eq_true htld))
          · exact Or.inl (Or.inr (decide_eq_true hip))
          · exact Or.inr ((contains_char_iff ..).mpr hat)

/-- C5 witness: the amended contract applied to `http://evil.tk/suspend`,
whose after-host portion contains `suspend` and whose TLD corroborates. -/
theorem c5_witness :
    (extract_features (str "http://evil.tk/suspend")).has_suspicious_keywords = 1 := by
  have h := c5_suspicious_keywords_contract (str "http://evil.tk/suspend")
    (by decide) (by decide)
  exact (h.2 (by decide)).mpr (Or.inr ⟨⟨str "suspend", by decide, by decide⟩,
    Or.inl (by decide)⟩)

/-! ## Claim C6 -/

/-- C6: extraction is total over arbitrary input values (the Lean embedding
is a total function into the 17-field `Features` record); non-string input,
the empty string, and every string whose parse has an empty authority are
sent to the all-zero default vector. -/
theorem c6_totality_default :
    extract_features_any URLValue.notString = default_features ∧
    (∀ s : List Char, s = [] ∨ (urlparse s).netloc = [] →
      extract_features_any (URLValue.ofString s) = default_features) ∧
    default_features = ⟨0, 0, 0, 0, 0, 0, 0, 0, 0, 0, 0, 0, 0, 0, 0, 0, 0⟩ := by
  refine ⟨rfl, ?_, rfl⟩
  intro s hs
  show extract_features s = default_features
  simp only [extract_features]
  rcases hs with rfl | hnet
  · rw [if_pos rfl]
  · by_cases hse : s = []
    · rw [if_pos hse]
    · rw [if_neg hse, if_pos hnet]

/-- C6 witness: a scheme-less string parses with no authority and is sent to
the default vector. -/
theorem c6_witness :
    extract_features_any (URLValue.ofString (str "a.b")) = default_features :=
  c6_totality_default.2.1 (str "a.b") (Or.inr (by decide))

/-! ## Claim C7 -/

/-- C7 counterexample to the claim as stated: the cap equations fail on
strings that do not parse — `a.b` has no authority, so the whole vector is
the all-zero default and `num_dots = 0`, while `min(count, cap) = 1`. -/
theorem c7_unparsed_counterexample :
    (extract_features (str "a.b")).num_dots = 0 ∧
    min (List.count '.' (str "a.b")) 5 = 1 := by
  decide

/-- C7 (amended): on every input that parses with a nonempty authority, each
capped numeric field equals `min(raw count, cap)` with caps 150, 5, 5, 10,
5, 100 and 50. -/
theorem c7_cap_equations (url : List Char) (h1 : url ≠ [])
    (h2 : (urlparse url).netloc ≠ []) :
    (extract_features url).url_length = min url.length 150 ∧
    (extract_features url).num_dots = min (List.count '.' url) 5 ∧
    (extract_features url).num_hyphens = min (List.count '-' url) 5 ∧
    (extract_features url).num_digits = min (List.countP (fun c => c.isDigit) url) 10 ∧
    (extract_features url).num_params = min (List.count '=' url) 5 ∧
    (extract_features url).path_length = min (urlparse url).path.length 100 ∧
    (extract_features url).domain_length = min (urlparse url).netloc.length 50 := by
  rw [extract_features_def url h1 h2]
  exact ⟨rfl, rfl, rfl, rfl, rfl, rfl, rfl⟩

/-- C7 witness: the cap equations instantiated on a concrete URL. -/
theorem c7_witness :
    (extract_features (str "https://a.b/c")).url_length
        = min (str "https://a.b/c").length 150 ∧
    (extract_features (str "https://a.b/c")).num_dots
        = min (List.count '.' (str "https://a.b/c")) 5 ∧
    (extract_features (str "https://a.b/c")).num_hyphens
        = min (List.count '-' (str "https://a.b/c")) 5 ∧
    (extract_features (str "https://a.b/c")).num_digits
        = min (List.countP (fun c => c.isDigit) (str "https://a.b/c")) 10 ∧
    (extract_features (str "https://a.b/c")).num_params
        = min (List.count '=' (str "https://a.b/c")) 5 ∧
    (extract_features (str "https://a.b/c")).path_length
        = min (urlparse (str "https://a.b/c")).path.length 100 ∧
    (extract_features (str "https://a.b/c")).domain_length
        = min (urlparse (str "https://a.b/c")).netloc.length 50 :=
  c7_cap_equations (str "https://a.b/c") (by decide) (by decide)

/-! ## Claim C8 -/

/-- C8: shortener detection is exact membership of the `www.`-cleaned host in
the shortener registry: `https://bit.ly/x` is flagged, `https://bit.ly.evil.com/x`
is not (no suffix leniency), and in general the detector fires exactly when
the host with every `www.` occurrence removed is an element of
`url_shorteners`. -/
theorem c8_shortener_membership :
    (extract_features (str "https://bit.ly/x")).is_url_shortener = 1 ∧
    (extract_features (str "https://bit.ly.evil.com/x")).is_url_shortener = 0 ∧
    (∀ hostname : List Char,
      is_url_shortener hostname = 1 ↔ removeWWW hostname ∈ url_shorteners) := by
  refine ⟨by decide, by decide, ?_⟩
  intro hostname
  unfold is_url_shortener
  by_cases hc : url_shorteners.contains (removeWWW hostname) = true
  · rw [if_pos hc]
    exact ⟨fun _ => (contains_list_iff _ _).mp hc, fun _ => rfl⟩
  · rw [if_neg hc]
    exact ⟨fun h0 => absurd h0 (by decide),
      fun hm => absurd ((contains_list_iff _ _).mpr hm) hc⟩

/-- C8 witness: the membership characterisation applied to `www.bit.ly`. -/
theorem c8_witness : is_url_shortener (str "www.bit.ly") = 1 :=
  (c8_shortener_membership.2.2 (str "www.bit.ly")).mpr (by decide)

/-! ## Claim C9 -/

/-- C9: the brand-spoofing feature depends only on the lower-cased authority:
two successfully parsed URLs with the same lower-cased authority receive the
same `has_brand_spoofing` value — the detector's `full_url` parameter is
dead, so scheme, path and query have no influence. -/
theorem c9_brand_spoofing_host_only (u1 u2 : List Char) (h1 : u1 ≠ [])
    (h2 : (urlparse u1).netloc ≠ []) (h3 : u2 ≠ [])
    (h4 : (urlparse u2).netloc ≠ [])
    (h5 : toLowerL (urlparse u1).netloc = toLowerL (urlparse u2).netloc) :
    (extract_features u1).has_brand_spoofing = (extract_features u2).has_brand_spoofing := by
  rw [extract_features_def u1 h1 h2, extract_features_def u2 h3 h4]
  show detect_brand_spoofing (toLowerL (urlparse u1).netloc) (toLowerL u1) =
    detect_brand_spoofing (toLowerL (urlparse u2).netloc) (toLowerL u2)
  rw [h5]
  rfl

/-- C9 witness: two URLs sharing the authority `paypal-x.com` up to case,
with different schemes, paths and brand-action words outside the host,
receive the same brand-spoofing value. -/
theorem c9_witness :
    (extract_features (str "https://paypal-x.com/a")).has_brand_spoofing =
      (extract_features (str "http://PAYPAL-X.com/paypal-verify?q=paypal-alert")).has_brand_spoofing :=
  c9_brand_spoofing_host_only (str "https://paypal-x.com/a")
    (str "http://PAYPAL-X.com/paypal-verify?q=paypal-alert")
    (by decide) (by decide) (by decide) (by decide) (by decide)

/-! ## Claim C10 -/

/-- C10 counterexample to the claim as stated: the authority
`a:b@x.google.com` contains a `:` (as a userinfo separator, not a port), yet
the whitelist check matches it — it ends with `.google.com` — so the veto is
active and `suspicious_keyword_combo = 0` despite `google` and `verify` both
occurring in the URL. -/
theorem c10_userinfo_counterexample :
    (urlparse (str "https://a:b@x.google.com/verify")).netloc.contains ':' = true ∧
    is_legitimate_domain
      (toLowerL (urlparse (str "https://a:b@x.google.com/verify")).netloc) = 1 ∧
    (extract_features (str "https://a:b@x.google.com/verify")).suspicious_keyword_combo
      = 0 := by
  decide

/-- C10 (amended): an authority that ends with `:` followed by a (possibly
empty) run of digits — an explicit port — never passes the whitelist check,
because the registry entries all end with a letter while such an authority
ends with a digit or `:`; in particular
`extract("https://google.com:443/verify")` has `suspicious_keyword_combo = 1`
while `extract("https://google.com/verify")` has
`suspicious_keyword_combo = 0`. -/
theorem c10_port_defeats_veto :
    (∀ h p : List Char, (∀ c ∈ p, c.isDigit = true) →
      is_legitimate_domain (toLowerL (h ++ ':' :: p)) = 0) ∧
    (extract_features (str "https://google.com:443/verify")).suspicious_keyword_combo
      = 1 ∧
    (extract_features (str "https://google.com/verify")).suspicious_keyword_combo = 0 :=
  ⟨port_never_whitelisted, by decide, by decide⟩

/-- C10 witness: the amended theorem applied to `google.com:443`. -/
theorem c10_witness :
    is_legitimate_domain (toLowerL (str "google.com" ++ ':' :: str "443")) = 0 :=
  c10_port_defeats_veto.1 (str "google.com") (str "443") (by decide)
